import Mathlib

/-!
Verification of the echojs fine-grained reactive runtime.

The definitions below are a shallow embedding of the JavaScript source:

* `src/echojs/core/reactivity.js` (the version with wrapper pooling, idle
  priority and two-phase `batchUpdates`, lines 1-225): dependency map,
  `trigger`, `scheduleEffect`, `batchUpdates`, `effect` wrappers and the
  per-function wrapper pool.
* `src/echojs/core/state.js`: the proxy `set` trap (old/new comparison and
  the index/length trigger policy).
* `src/echojs/middle/reactiveList.js`: the keyed list reconciler.
* `src/unnamed/part_001` (`middle/virtualList.js`): the windowed reconciler.
* `src/echojs/core/lifecycle.js`: the disposal registry (`disposeNode`).

Effects, targets and DOM nodes are identified by natural numbers; JavaScript
`Set` objects are modelled as insertion-ordered duplicate-free lists, `Map`
objects as insertion-ordered association lists.
-/

namespace EchoJS

/-- Property keys as seen by `track`/`trigger`: a canonical numeric index
(`!isNaN(prop)` in the source), the distinguished `length` property, or any
other string key. -/
inductive RKey where
  | num (n : Nat)
  | len
  | other (s : String)
deriving DecidableEq, Repr

/-- Mirrors the source predicate `!isNaN(prop)`. -/
def isNumericKey : RKey → Bool
  | RKey.num _ => true
  | _ => false

/-- Mirrors `Number(prop)` on a key already known to be numeric. -/
def keyIdx : RKey → Nat
  | RKey.num n => n
  | _ => 0

/-- What `trigger` inspects of a target: `Array.isArray(target)` and
`target.length` at trigger time. -/
structure TargetInfo where
  isArr : Bool
  length : Nat
deriving DecidableEq, Repr

/-- Module-level mutable scheduling state of `reactivity.js`: the `batched`
flag, the `queuedEffects` set (deferred during a batch), the `effectQueue`
set (pending microtask flush) and the idle-callback queue produced by
`requestIdleCallback` calls. -/
structure RuntimeState where
  batched : Bool
  queuedEffects : List Nat
  effectQueue : List Nat
  idleQueue : List Nat
deriving DecidableEq, Repr

/-- JavaScript `Set.add`: append the element unless already present. -/
def insertUnique (l : List Nat) (e : Nat) : List Nat :=
  if e ∈ l then l else l ++ [e]

/-- The `effectsToRun` set computed by `trigger(target, prop)`
(`reactivity.js` lines 160-184): for an array target and a numeric key, the
deps of that exact index, plus the deps of `length` when the index is `≥`
the target's current length; otherwise exactly the deps of the key.
`deps t k` is the dependency-map entry `depMap.get(target).get(prop)`. -/
def triggerCollect (deps : Nat → RKey → List Nat) (targets : Nat → TargetInfo)
    (t : Nat) (k : RKey) : List Nat :=
  if (targets t).isArr && isNumericKey k then
    let base := (deps t k).foldl insertUnique []
    if keyIdx k ≥ (targets t).length then
      (deps t RKey.len).foldl insertUnique base
    else base
  else
    (deps t k).foldl insertUnique []

/-- `scheduleEffect(effectFn)` (`reactivity.js` lines 55-78): an idle-priority
effect is handed to `requestIdleCallback` unconditionally; a normal effect is
added to `effectQueue` unless already queued. -/
def scheduleEffectStep (idle : Nat → Bool) (e : Nat) (s : RuntimeState) :
    RuntimeState :=
  if idle e then { s with idleQueue := s.idleQueue ++ [e] }
  else if e ∈ s.effectQueue then s
  else { s with effectQueue := s.effectQueue ++ [e] }

/-- The body of the `effectsToRun.forEach` loop ending `trigger`
(`reactivity.js` lines 187-193): defer into `queuedEffects` when `batched`,
otherwise schedule at once. -/
def dispatchEffect (idle : Nat → Bool) (s : RuntimeState) (e : Nat) : RuntimeState :=
  if s.batched then { s with queuedEffects := insertUnique s.queuedEffects e }
  else scheduleEffectStep idle e s

/-- A full `trigger(target, key)` call: collect `effectsToRun`, then dispatch
each collected effect. -/
def triggerStep (deps : Nat → RKey → List Nat) (targets : Nat → TargetInfo)
    (idle : Nat → Bool) (t : Nat) (k : RKey) (s : RuntimeState) : RuntimeState :=
  (triggerCollect deps targets t k).foldl (dispatchEffect idle) s

/-- The `toNotify.forEach(scheduleEffect)` loop of `batchUpdates`. -/
def schedQueue (idle : Nat → Bool) (q : List Nat) (s : RuntimeState) : RuntimeState :=
  q.foldl (fun s e => scheduleEffectStep idle e s) s

/-- The `finally` block of `batchUpdates` (`reactivity.js` lines 210-216):
clear the `batched` flag, snapshot and clear `queuedEffects`, then call
`scheduleEffect` on each snapshotted effect. -/
def flushBatch (idle : Nat → Bool) (s : RuntimeState) : RuntimeState :=
  schedQueue idle s.queuedEffects { s with batched := false, queuedEffects := [] }

/-- Run a sequence of plain state writes, each reaching `trigger(target, key)`. -/
def runMuts (deps : Nat → RKey → List Nat) (targets : Nat → TargetInfo)
    (idle : Nat → Bool) : List (Nat × RKey) → RuntimeState → RuntimeState
  | [], s => s
  | m :: rest, s =>
      runMuts deps targets idle rest (triggerStep deps targets idle m.1 m.2 s)

/-- A step of a batch's mutation function: either a state write that reaches
`trigger(target, key)`, or a nested `batchUpdates` call whose own mutation
function performs a sequence of plain writes. -/
inductive Act where
  | mut (t : Nat) (k : RKey)
  | nest (inner : List (Nat × RKey))

/-- Interpret one action against the runtime state. A nested `batchUpdates`
call (`reactivity.js` lines 204-223) sets `batched := true`, runs its
mutation function, and then unconditionally runs the `finally` flush — the
source version has no already-batched guard. -/
def runAct (deps : Nat → RKey → List Nat) (targets : Nat → TargetInfo)
    (idle : Nat → Bool) : Act → RuntimeState → RuntimeState
  | Act.mut t k, s => triggerStep deps targets idle t k s
  | Act.nest inner, s =>
      flushBatch idle (runMuts deps targets idle inner { s with batched := true })

/-- Interpret a sequence of actions left to right. -/
def runActs (deps : Nat → RKey → List Nat) (targets : Nat → TargetInfo)
    (idle : Nat → Bool) : List Act → RuntimeState → RuntimeState
  | [], s => s
  | a :: rest, s => runActs deps targets idle rest (runAct deps targets idle a s)

/-- A top-level `batchUpdates(dataFn)` call whose mutation function performs
a sequence of plain writes: set `batched := true`, run the writes, then the
`finally` flush. -/
def batchUpdates (deps : Nat → RKey → List Nat) (targets : Nat → TargetInfo)
    (idle : Nat → Bool) (ms : List (Nat × RKey)) (s : RuntimeState) : RuntimeState :=
  flushBatch idle (runMuts deps targets idle ms { s with batched := true })

/-- The module-level state before any activity: not batched, all queues empty. -/
def initRuntime : RuntimeState := ⟨false, [], [], []⟩

/-! ### Basic lemmas about the `Set` model -/

theorem mem_insertUnique {l : List Nat} {e x : Nat} :
    x ∈ insertUnique l e ↔ x ∈ l ∨ x = e := by
  unfold insertUnique
  by_cases he : e ∈ l
  · simp only [he, if_true]
    constructor
    · exact Or.inl
    · rintro (h | rfl)
      · exact h
      · exact he
  · simp [he, List.mem_append]

theorem insertUnique_nodup {l : List Nat} (e : Nat) (h : l.Nodup) :
    (insertUnique l e).Nodup := by
  unfold insertUnique
  by_cases he : e ∈ l
  · simpa [he] using h
  · simp [he, List.nodup_append, h]

theorem mem_foldl_insertUnique {x : Nat} (l : List Nat) : ∀ acc : List Nat,
    (x ∈ l.foldl insertUnique acc ↔ x ∈ acc ∨ x ∈ l) := by
  induction l with
  | nil => simp
  | cons a l ih =>
    intro acc
    rw [List.foldl_cons, ih]
    simp only [mem_insertUnique, List.mem_cons]
    tauto

/-! ### Lemmas about scheduling -/

theorem scheduleEffectStep_batched (idle : Nat → Bool) (e : Nat) (s : RuntimeState) :
    (scheduleEffectStep idle e s).batched = s.batched := by
  unfold scheduleEffectStep
  split
  · rfl
  · split <;> rfl

theorem scheduleEffectStep_queued (idle : Nat → Bool) (e : Nat) (s : RuntimeState) :
    (scheduleEffectStep idle e s).queuedEffects = s.queuedEffects := by
  unfold scheduleEffectStep
  split
  · rfl
  · split <;> rfl

theorem scheduleEffectStep_effectQueue_nodup (idle : Nat → Bool) (e : Nat)
    (s : RuntimeState) (h : s.effectQueue.Nodup) :
    (scheduleEffectStep idle e s).effectQueue.Nodup := by
  unfold scheduleEffectStep
  split
  · exact h
  · split
    · exact h
    · simp_all [List.nodup_append]

theorem scheduleEffectStep_effectQueue_mono (idle : Nat → Bool) (e x : Nat)
    (s : RuntimeState) (h : x ∈ s.effectQueue) :
    x ∈ (scheduleEffectStep idle e s).effectQueue := by
  unfold scheduleEffectStep
  split
  · exact h
  · split
    · exact h
    · simp [h]

theorem scheduleEffectStep_idleQueue (idle : Nat → Bool) (e : Nat) (s : RuntimeState) :
    (scheduleEffectStep idle e s).idleQueue =
      s.idleQueue ++ (if idle e then [e] else []) := by
  unfold scheduleEffectStep
  by_cases hi : idle e
  · simp [hi]
  · by_cases hm : e ∈ s.effectQueue <;> simp [hi, hm]

theorem schedQueue_effectQueue_nodup (idle : Nat → Bool) (q : List Nat) :
    ∀ s : RuntimeState, s.effectQueue.Nodup →
      (schedQueue idle q s).effectQueue.Nodup := by
  induction q with
  | nil => intro s h; exact h
  | cons a q ih =>
    intro s h
    rw [schedQueue, List.foldl_cons]
    exact ih _ (scheduleEffectStep_effectQueue_nodup idle a s h)

theorem schedQueue_effectQueue_mono (idle : Nat → Bool) (q : List Nat) :
    ∀ (s : RuntimeState) (x : Nat), x ∈ s.effectQueue →
      x ∈ (schedQueue idle q s).effectQueue := by
  induction q with
  | nil => intro s x h; exact h
  | cons a q ih =>
    intro s x h
    rw [schedQueue, List.foldl_cons]
    exact ih _ x (scheduleEffectStep_effectQueue_mono idle a x s h)

theorem schedQueue_effectQueue_mem (idle : Nat → Bool) (q : List Nat) :
    ∀ (s : RuntimeState) (x : Nat), x ∈ q → idle x = false →
      x ∈ (schedQueue idle q s).effectQueue := by
  induction q with
  | nil => intro s x h; cases h
  | cons a q ih =>
    intro s x hx hidle
    rw [schedQueue, List.foldl_cons]
    rcases List.mem_cons.mp hx with rfl | hx
    · apply schedQueue_effectQueue_mono
      unfold scheduleEffectStep
      rw [hidle]
      simp only [Bool.false_eq_true, if_false]
      split
      · assumption
      · simp
    · exact ih _ x hx hidle

theorem schedQueue_idleQueue (idle : Nat → Bool) (q : List Nat) :
    ∀ s : RuntimeState,
      (schedQueue idle q s).idleQueue = s.idleQueue ++ q.filter idle := by
  induction q with
  | nil => intro s; simp [schedQueue]
  | cons a q ih =>
    intro s
    rw [schedQueue, List.foldl_cons, ← schedQueue, ih, scheduleEffectStep_idleQueue]
    by_cases hi : idle a
    · simp [hi, List.filter_cons]
    · simp [hi, List.filter_cons]

/-! ### Lemmas about the batched dispatch path -/

theorem dispatchFold_batched (idle : Nat → Bool) (l : List Nat) :
    ∀ s : RuntimeState, s.batched = true →
      ((l.foldl (dispatchEffect idle) s).batched = true ∧
       (l.foldl (dispatchEffect idle) s).effectQueue = s.effectQueue ∧
       (l.foldl (dispatchEffect idle) s).idleQueue = s.idleQueue) := by
  induction l with
  | nil => intro s h; exact ⟨h, rfl, rfl⟩
  | cons a l ih =>
    intro s h
    rw [List.foldl_cons]
    have h1 : dispatchEffect idle s a =
        { s with queuedEffects := insertUnique s.queuedEffects a } := by
      unfold dispatchEffect
      rw [h]
      simp
    rw [h1]
    exact ih _ h

theorem dispatchFold_queued_nodup (idle : Nat → Bool) (l : List Nat) :
    ∀ s : RuntimeState, s.batched = true → s.queuedEffects.Nodup →
      (l.foldl (dispatchEffect idle) s).queuedEffects.Nodup := by
  induction l with
  | nil => intro s _ h; exact h
  | cons a l ih =>
    intro s hb hn
    rw [List.foldl_cons]
    have h1 : dispatchEffect idle s a =
        { s with queuedEffects := insertUnique s.queuedEffects a } := by
      unfold dispatchEffect
      rw [hb]
      simp
    rw [h1]
    exact ih _ hb (insertUnique_nodup a hn)

theorem triggerStep_batched (deps : Nat → RKey → List Nat) (targets : Nat → TargetInfo)
    (idle : Nat → Bool) (t : Nat) (k : RKey) (s : RuntimeState) (h : s.batched = true) :
    ((triggerStep deps targets idle t k s).batched = true ∧
     (triggerStep deps targets idle t k s).effectQueue = s.effectQueue ∧
     (triggerStep deps targets idle t k s).idleQueue = s.idleQueue) :=
  dispatchFold_batched idle _ s h

theorem runMuts_batched (deps : Nat → RKey → List Nat) (targets : Nat → TargetInfo)
    (idle : Nat → Bool) (ms : List (Nat × RKey)) :
    ∀ s : RuntimeState, s.batched = true →
      ((runMuts deps targets idle ms s).batched = true ∧
       (runMuts deps targets idle ms s).effectQueue = s.effectQueue ∧
       (runMuts deps targets idle ms s).idleQueue = s.idleQueue ∧
       (s.queuedEffects.Nodup →
         (runMuts deps targets idle ms s).queuedEffects.Nodup)) := by
  induction ms with
  | nil => intro s h; exact ⟨h, rfl, rfl, fun hn => hn⟩
  | cons m ms ih =>
    intro s hb
    rw [runMuts]
    have h1 := triggerStep_batched deps targets idle m.1 m.2 s hb
    have h2 := ih (triggerStep deps targets idle m.1 m.2 s) h1.1
    refine ⟨h2.1, h2.2.1.trans h1.2.1, h2.2.2.1.trans h1.2.2, fun hn => h2.2.2.2 ?_⟩
    exact dispatchFold_queued_nodup idle _ s hb hn

theorem schedQueue_batched (idle : Nat → Bool) (q : List Nat) :
    ∀ s : RuntimeState, (schedQueue idle q s).batched = s.batched := by
  induction q with
  | nil => intro s; rfl
  | cons a q ih =>
    intro s
    rw [schedQueue, List.foldl_cons, ← schedQueue, ih, scheduleEffectStep_batched]

theorem schedQueue_queued (idle : Nat → Bool) (q : List Nat) :
    ∀ s : RuntimeState, (schedQueue idle q s).queuedEffects = s.queuedEffects := by
  induction q with
  | nil => intro s; rfl
  | cons a q ih =>
    intro s
    rw [schedQueue, List.foldl_cons, ← schedQueue, ih, scheduleEffectStep_queued]

/-- Combined behaviour of the `finally` flush of `batchUpdates`. -/
theorem flushBatch_spec (idle : Nat → Bool) (s : RuntimeState) :
    ((flushBatch idle s).batched = false ∧
     (flushBatch idle s).queuedEffects = [] ∧
     (flushBatch idle s).idleQueue = s.idleQueue ++ s.queuedEffects.filter idle ∧
     (s.effectQueue.Nodup → (flushBatch idle s).effectQueue.Nodup) ∧
     (∀ e, e ∈ s.queuedEffects → idle e = false →
        e ∈ (flushBatch idle s).effectQueue)) := by
  refine ⟨?_, ?_, ?_, ?_, ?_⟩
  · rw [flushBatch, schedQueue_batched]
  · rw [flushBatch, schedQueue_queued]
  · rw [flushBatch, schedQueue_idleQueue]
  · intro h
    exact schedQueue_effectQueue_nodup idle _ _ h
  · intro e he hid
    exact schedQueue_effectQueue_mem idle _ _ e he hid

/-! ### Claim C1 -/

/-- Claim C1: for every effect subscribed to a key and every sequence of `n`
writes to that key inside a single `batchUpdates` call, no effect is
scheduled while the mutation function is still running (the microtask and
idle queues stay empty during the batched phase), and after the batch
completes each effect appears at most once in the microtask queue and at
most once in the idle queue — at most one scheduled run, never one per
mutation. -/
theorem batch_schedules_effect_at_most_once (deps : Nat → RKey → List Nat)
    (targets : Nat → TargetInfo) (idle : Nat → Bool) (t : Nat) (k : RKey)
    (n : Nat) (e : Nat) :
    ((runMuts deps targets idle (List.replicate n (t, k))
        { initRuntime with batched := true }).effectQueue = [] ∧
     (runMuts deps targets idle (List.replicate n (t, k))
        { initRuntime with batched := true }).idleQueue = [] ∧
     (batchUpdates deps targets idle (List.replicate n (t, k))
        initRuntime).effectQueue.count e ≤ 1 ∧
     (batchUpdates deps targets idle (List.replicate n (t, k))
        initRuntime).idleQueue.count e ≤ 1) := by
  have h := runMuts_batched deps targets idle (List.replicate n (t, k))
    { initRuntime with batched := true } rfl
  have hqn : (runMuts deps targets idle (List.replicate n (t, k))
      { initRuntime with batched := true }).queuedEffects.Nodup :=
    h.2.2.2 List.nodup_nil
  have hf := flushBatch_spec idle (runMuts deps targets idle (List.replicate n (t, k))
    { initRuntime with batched := true })
  refine ⟨h.2.1, h.2.2.1, ?_, ?_⟩
  · have hnodup : (batchUpdates deps targets idle (List.replicate n (t, k))
        initRuntime).effectQueue.Nodup := by
      apply hf.2.2.2.1
      rw [h.2.1]
      exact List.nodup_nil
    exact List.nodup_iff_count_le_one.mp hnodup e
  · have hiq : (batchUpdates deps targets idle (List.replicate n (t, k))
        initRuntime).idleQueue =
        (runMuts deps targets idle (List.replicate n (t, k))
          { initRuntime with batched := true }).queuedEffects.filter idle := by
      rw [batchUpdates]
      rw [hf.2.2.1, h.2.2.1]
      rfl
    rw [hiq]
    calc ((runMuts deps targets idle (List.replicate n (t, k))
            { initRuntime with batched := true }).queuedEffects.filter idle).count e
        ≤ (runMuts deps targets idle (List.replicate n (t, k))
            { initRuntime with batched := true }).queuedEffects.count e :=
          (List.filter_sublist _).count_le e
      _ ≤ 1 := List.nodup_iff_count_le_one.mp hqn e

/-! ### Claim C2 -/

/-- Dependency map for the batching scenarios: one effect, number `0`,
subscribed to the key `"a"` of target `0`. -/
def deps1 : Nat → RKey → List Nat := fun t k =>
  match t, k with
  | 0, RKey.other s => if s = "a" then [0] else []
  | _, _ => []

/-- Target table for the batching scenarios: plain (non-array) objects. -/
def targets1 : Nat → TargetInfo := fun _ => ⟨false, 0⟩

/-- Priority table for the batching scenarios: all effects normal priority. -/
def idle1 : Nat → Bool := fun _ => false

/-- Claim C2 counterexample: inside an outer batch, a write to key `"a"`
defers effect `0` into `queuedEffects`; a subsequent nested (inner)
`batchUpdates` call then clears the `batched` flag and flushes the outer
batch's deferred set, moving effect `0` into the microtask `effectQueue`
while the outer mutation function is still running. So the trigger did not
remain deferred until the outermost batch completed, and the outer batch's
suppression was cleared by the inner call — the claim is false on this
input. -/
theorem nested_batch_cex :
    runActs deps1 targets1 idle1 [Act.mut 0 (RKey.other "a"), Act.nest []]
      { initRuntime with batched := true } =
      { batched := false, queuedEffects := [], effectQueue := [0],
        idleQueue := [] } := by decide

/-- Claim C2 (amended): a nested inner `batchUpdates` call runs its mutation
function with batching active, but on completion it unconditionally clears
the `batched` flag and immediately flushes every deferred effect — including
effects deferred by the outer batch's earlier mutations: any non-idle effect
deferred at that point is moved into the microtask queue at once, and the
outer batch's suppression is gone (subsequent outer-batch triggers schedule
immediately). -/
theorem nested_batch_flushes_early (deps : Nat → RKey → List Nat)
    (targets : Nat → TargetInfo) (idle : Nat → Bool)
    (inner : List (Nat × RKey)) (s : RuntimeState)
    (hb : s.batched = true) (e : Nat)
    (he : e ∈ (runMuts deps targets idle inner
      { s with batched := true }).queuedEffects)
    (hid : idle e = false) :
    ((runAct deps targets idle (Act.nest inner) s).batched = false ∧
     (runAct deps targets idle (Act.nest inner) s).queuedEffects = [] ∧
     e ∈ (runAct deps targets idle (Act.nest inner) s).effectQueue) := by
  have h := flushBatch_spec idle
    (runMuts deps targets idle inner { s with batched := true })
  exact ⟨h.1, h.2.1, h.2.2.2.2 e he hid⟩

/-- Witness for the amended claim C2 at a concrete input. -/
theorem nested_batch_flushes_early_witness :
    (({ initRuntime with batched := true } : RuntimeState).batched = true ∧
     0 ∈ (runMuts deps1 targets1 idle1 [(0, RKey.other "a")]
       { { initRuntime with batched := true } with batched := true }).queuedEffects ∧
     idle1 0 = false) ∧
    ((runAct deps1 targets1 idle1 (Act.nest [(0, RKey.other "a")])
        { initRuntime with batched := true }).batched = false ∧
     (runAct deps1 targets1 idle1 (Act.nest [(0, RKey.other "a")])
        { initRuntime with batched := true }).queuedEffects = [] ∧
     0 ∈ (runAct deps1 targets1 idle1 (Act.nest [(0, RKey.other "a")])
        { initRuntime with batched := true }).effectQueue) :=
  ⟨⟨by decide, by decide, by decide⟩,
    nested_batch_flushes_early deps1 targets1 idle1 [(0, RKey.other "a")]
      { initRuntime with batched := true } (by decide) 0 (by decide) (by decide)⟩

/-! ### Claim C3 -/

/-- Claim C3: for a sequence target, `trigger(target, i)` collects, besides
the effects subscribed to index `i` itself, exactly the effects subscribed
to `length` when `i` lies outside the current populated range
(`i ≥ target.length`); for an in-range index, `length`-only subscribers are
not collected. -/
theorem trigger_index_length_policy (deps : Nat → RKey → List Nat)
    (targets : Nat → TargetInfo) (t i x : Nat)
    (harr : (targets t).isArr = true) :
    (x ∈ triggerCollect deps targets t (RKey.num i) ↔
      x ∈ deps t (RKey.num i) ∨
        ((targets t).length ≤ i ∧ x ∈ deps t RKey.len)) := by
  unfold triggerCollect
  by_cases hlen : (targets t).length ≤ i
  · simp only [harr, isNumericKey, Bool.and_self, if_true, keyIdx, ge_iff_le,
      hlen, mem_foldl_insertUnique, List.not_mem_nil, false_or]
    tauto
  · simp only [harr, isNumericKey, Bool.and_self, if_true, keyIdx, ge_iff_le,
      hlen, if_false, mem_foldl_insertUnique, List.not_mem_nil, false_or]
    tauto

/-- Witness for claim C3 at a concrete input: a sequence of length 2, an
effect `7` subscribed only to `length`, triggered at index 5 (beyond the
populated range). -/
theorem trigger_index_length_policy_witness :
    ((fun _ : Nat => (⟨true, 2⟩ : TargetInfo)) 0).isArr = true ∧
    (7 ∈ triggerCollect (fun _ k => if k = RKey.len then [7] else [])
        (fun _ => ⟨true, 2⟩) 0 (RKey.num 5) ↔
      7 ∈ (fun _ k => if k = RKey.len then [7] else []) 0 (RKey.num 5) ∨
        (((fun _ : Nat => (⟨true, 2⟩ : TargetInfo)) 0).length ≤ 5 ∧
          7 ∈ (fun _ k => if k = RKey.len then [7] else []) 0 RKey.len)) :=
  ⟨rfl, trigger_index_length_policy (fun _ k => if k = RKey.len then [7] else [])
    (fun _ => ⟨true, 2⟩) 0 5 7 rfl⟩

/-! ### The state wrapper's `set` trap (`state.js` lines 54-77) -/

/-- Mirrors the source predicate `prop === 'length'`. -/
def isLengthProp : RKey → Bool
  | RKey.len => true
  | _ => false

/-- The underlying write `Reflect.set(target, prop, value)` on the target's
own store. -/
def setWrite (props : RKey → Nat) (k : RKey) (v : Nat) : RKey → Nat :=
  fun k2 => if k2 = k then v else props k2

/-- The trigger calls fired by the `set` trap, given the old stored value
`old` (read before the write), the new value `v` and the written key: silent
when identical; for a sequence, a numeric index fires the index then
`length`, and a `length` write fires `length`; otherwise exactly the written
key fires. -/
def setTrapFired (isArr : Bool) (old v : Nat) (k : RKey) : List RKey :=
  if old = v then []
  else if isArr && (isNumericKey k || isLengthProp k) then
    (if isNumericKey k then [k] else []) ++ [RKey.len]
  else [k]

/-- The whole `set` trap: read the old value, perform the underlying write
unconditionally, then fire the triggers. Returns the updated store and the
keys passed to `trigger`, in call order. -/
def setTrap (isArr : Bool) (props : RKey → Nat) (k : RKey) (v : Nat) :
    ((RKey → Nat) × List RKey) :=
  (setWrite props k v, setTrapFired isArr (props k) v k)

/-! ### Claim C4 -/

/-- Claim C4: every write performs the underlying store update (the key holds
the new value afterwards), and the trap fires no trigger exactly when the
new value equals the old one — no-op writes are silent, value-changing
writes always fire. -/
theorem noop_writes_are_silent (isArr : Bool) (props : RKey → Nat) (k : RKey)
    (v : Nat) :
    ((setTrap isArr props k v).1 k = v ∧
     ((setTrap isArr props k v).2 = [] ↔ props k = v)) := by
  constructor
  · simp [setTrap, setWrite]
  · unfold setTrap setTrapFired
    by_cases h : props k = v
    · simp [h]
    · by_cases h2 : isArr && (isNumericKey k || isLengthProp k) <;> simp [h, h2]

/-! ### Claim C5 -/

/-- Claim C5: a value-changing write to a numeric index of a sequence fires
that index and then `length`; a value-changing write to the `length`
property of a sequence fires exactly `length`; a value-changing write to a
non-numeric key of a sequence, and any value-changing write on a
non-sequence target, fires exactly the written key. -/
theorem write_trigger_policy (old v : Nat) (h : old ≠ v) (i : Nat) (s : String)
    (k : RKey) :
    (setTrapFired true old v (RKey.num i) = [RKey.num i, RKey.len] ∧
     setTrapFired true old v RKey.len = [RKey.len] ∧
     setTrapFired true old v (RKey.other s) = [RKey.other s] ∧
     setTrapFired false old v k = [k]) := by
  refine ⟨?_, ?_, ?_, ?_⟩ <;> simp [setTrapFired, h, isNumericKey, isLengthProp]

/-- Witness for claim C5 at a concrete input. -/
theorem write_trigger_policy_witness :
    (0 : Nat) ≠ 1 ∧
    (setTrapFired true 0 1 (RKey.num 3) = [RKey.num 3, RKey.len] ∧
     setTrapFired true 0 1 RKey.len = [RKey.len] ∧
     setTrapFired true 0 1 (RKey.other "x") = [RKey.other "x"] ∧
     setTrapFired false 0 1 (RKey.other "y") = [RKey.other "y"]) :=
  ⟨by decide, write_trigger_policy 0 1 (by decide) 3 "x" (RKey.other "y")⟩

/-! ### Effect wrapper lifecycle (`reactivity.js` lines 86-127) -/

/-- Effect wrapper state: the `disposed` flag and the reverse-dependency set
`deps` (dep-set identifiers). -/
structure Wrapper where
  disposed : Bool
  deps : List Nat
deriving DecidableEq, Repr

/-- One invocation of the wrapper (the initial synchronous run, a microtask
flush entry, or an idle callback): if disposed, return immediately;
otherwise clean up the old deps, run the user body — which tracks `tracked`
as the fresh dependency set, with any exception routed to the global error
handler — and clear the active slot. Returns the new wrapper state and
whether the body was entered. -/
def invokeWrapper (tracked : List Nat) (w : Wrapper) : Wrapper × Bool :=
  if w.disposed then (w, false)
  else ({ disposed := false, deps := tracked }, true)

/-- The `wrapped.dispose()` closure (lines 109-117): return if already
disposed, else set the flag permanently and clean up all dep subscriptions.
The pool interaction stores only an empty-or-unchanged array and is modelled
separately by `effectDisposePool`. -/
def disposeWrapper (w : Wrapper) : Wrapper :=
  if w.disposed then w else { disposed := true, deps := [] }

/-- Anything the outside world subsequently does to a wrapper: invoke it or
dispose it. -/
inductive WrapperOp where
  | invoke (tracked : List Nat)
  | dispose

/-- Run a sequence of wrapper operations, counting how many times the effect
body is entered. -/
def runWrapperOps : List WrapperOp → Wrapper → Wrapper × Nat
  | [], w => (w, 0)
  | WrapperOp.invoke tr :: rest, w =>
      let r := invokeWrapper tr w
      let r2 := runWrapperOps rest r.1
      (r2.1, (if r.2 then 1 else 0) + r2.2)
  | WrapperOp.dispose :: rest, w => runWrapperOps rest (disposeWrapper w)

theorem runWrapperOps_disposed (ops : List WrapperOp) :
    ∀ w : Wrapper, w.disposed = true →
      ((runWrapperOps ops w).1.disposed = true ∧ (runWrapperOps ops w).2 = 0) := by
  induction ops with
  | nil => intro w h; exact ⟨h, rfl⟩
  | cons op rest ih =>
    intro w h
    match op with
    | WrapperOp.invoke tr =>
      have hw : invokeWrapper tr w = (w, false) := by
        unfold invokeWrapper
        rw [h]
        simp
      rw [runWrapperOps]
      rw [hw]
      simpa using ih w h
    | WrapperOp.dispose =>
      have hw : disposeWrapper w = w := by
        unfold disposeWrapper
        rw [h]
        simp
      rw [runWrapperOps, hw]
      exact ih w h

/-! ### Claim C6 -/

/-- Claim C6: after `dispose()` returns, the effect body is never entered
again under any sequence of later invocations (scheduled flush runs, idle
callbacks, direct calls) and disposals, and calling `dispose()` a second
time is a no-op that leaves the wrapper state unchanged. -/
theorem dispose_is_permanent (w : Wrapper) (ops : List WrapperOp) :
    ((runWrapperOps ops (disposeWrapper w)).2 = 0 ∧
     disposeWrapper (disposeWrapper w) = disposeWrapper w) := by
  have hd : (disposeWrapper w).disposed = true := by
    unfold disposeWrapper
    by_cases h : w.disposed <;> simp [h]
  refine ⟨(runWrapperOps_disposed ops _ hd).2, ?_⟩
  by_cases h : w.disposed <;> simp [disposeWrapper, h]

/-! ### The microtask flush and error routing -/

/-- Observable state while a flush runs: the module-level `activeEffect`
slot, the effects whose body was entered (in order), and the exceptions
routed to the global error handler (by effect id, in order). -/
structure FlushState where
  activeEffect : Option Nat
  ran : List Nat
  handled : List Nat
deriving DecidableEq, Repr

/-- One `fn()` call made by the flush loop, i.e. one wrapper invocation
(`reactivity.js` lines 92-104): a disposed wrapper returns at once;
otherwise the wrapper becomes the active effect, the body runs inside
`try`/`catch` with any exception routed to `globalErrorHandler`, and the
`finally` clause clears `activeEffect` on every exit path. `throws e` says
whether effect `e`'s body throws this run. The wrapper never lets an
exception escape, so the flush loop's own `try`/`catch` is never entered. -/
def invokeInFlush (disposed throws : Nat → Bool) (e : Nat) (s : FlushState) :
    FlushState :=
  if disposed e then s
  else
    let s1 := { s with activeEffect := some e, ran := s.ran ++ [e] }
    let s2 := if throws e then { s1 with handled := s1.handled ++ [e] } else s1
    { s2 with activeEffect := none }

/-- The microtask flush body (`reactivity.js` lines 69-77): run every effect
of the queue snapshot in order, each call guarded. -/
def runFlush (disposed throws : Nat → Bool) (q : List Nat) (s : FlushState) :
    FlushState :=
  q.foldl (fun s e => invokeInFlush disposed throws e s) s

theorem runFlush_spec (disposed throws : Nat → Bool) (q : List Nat) :
    ∀ s : FlushState, s.activeEffect = none →
      runFlush disposed throws q s =
        { activeEffect := none,
          ran := s.ran ++ q.filter (fun e => !disposed e),
          handled := s.handled ++
            q.filter (fun e => !disposed e && throws e) } := by
  induction q with
  | nil =>
    intro s h
    cases s
    simp_all [runFlush]
  | cons e q ih =>
    intro s h
    rw [runFlush, List.foldl_cons, ← runFlush]
    by_cases hd : disposed e
    · have he : invokeInFlush disposed throws e s = s := by
        unfold invokeInFlush
        rw [hd]
        simp
      rw [he, ih s h]
      simp [List.filter_cons, hd]
    · by_cases ht : throws e
      · have he : invokeInFlush disposed throws e s =
            { activeEffect := none, ran := s.ran ++ [e],
              handled := s.handled ++ [e] } := by
          unfold invokeInFlush
          simp [hd, ht]
        rw [he, ih _ rfl]
        simp [List.filter_cons, hd, ht]
      · have he : invokeInFlush disposed throws e s =
            { activeEffect := none, ran := s.ran ++ [e],
              handled := s.handled } := by
          unfold invokeInFlush
          simp [hd, ht]
        rw [he, ih _ rfl]
        simp [List.filter_cons, hd, ht]

/-! ### Claim C9 -/

/-- Claim C9: in a flush of any queue, every non-disposed effect's body runs
even when earlier bodies throw; each thrown exception is caught at the
effect-invocation boundary and routed to the global error handler (one entry
per throwing non-disposed effect); and the `activeEffect` slot is `none`
after the flush — cleared on every exit path including throwing ones. -/
theorem flush_isolates_errors (disposed throws : Nat → Bool) (q : List Nat) :
    ((runFlush disposed throws q ⟨none, [], []⟩).ran =
        q.filter (fun e => !disposed e) ∧
     (runFlush disposed throws q ⟨none, [], []⟩).handled =
        q.filter (fun e => !disposed e && throws e) ∧
     (runFlush disposed throws q ⟨none, [], []⟩).activeEffect = none) := by
  rw [runFlush_spec disposed throws q ⟨none, [], []⟩ rfl]
  exact ⟨by simp, by simp, rfl⟩

/-! ### The wrapper pool (`reactivity.js` lines 28-29, 86-122) -/

/-- The pool bucket for one user function `fn`: `wrapperPool.get(fn)`
(`none` when the key is absent), plus a counter of fresh wrapper
constructions and a counter of pool-hit reinitializations. -/
structure PoolState where
  pool : Option (List Nat)
  next : Nat
  reused : Nat
deriving DecidableEq, Repr

/-- `effect(fn)` registration (lines 86-127): `wrapperPool.get(fn) || []`,
then `pool.pop()`; a hit takes the reinitialization branch (counted in
`reused`), a miss constructs a fresh wrapper. -/
def effectRegister (ps : PoolState) : PoolState × Nat :=
  let arr := ps.pool.getD []
  match arr.getLast? with
  | none => ({ ps with next := ps.next + 1 }, ps.next)
  | some w => ({ ps with pool := some arr.dropLast, reused := ps.reused + 1 }, w)

/-- The pool interaction of `wrapped.dispose()` (lines 114-116): read the
bucket (or a fresh empty array) and store it back unchanged — the disposed
wrapper is never pushed. -/
def effectDisposePool (ps : PoolState) : PoolState :=
  { ps with pool := some (ps.pool.getD []) }

/-- An interleaving step of `effect(fn)` registrations and `dispose()` calls
for one user function. -/
inductive PoolOp where
  | reg
  | disp

/-- Run an interleaving of registrations and disposals against the pool. -/
def runPoolOps : List PoolOp → PoolState → PoolState
  | [], ps => ps
  | PoolOp.reg :: rest, ps => runPoolOps rest (effectRegister ps).1
  | PoolOp.disp :: rest, ps => runPoolOps rest (effectDisposePool ps)

theorem runPoolOps_empty_invariant (ops : List PoolOp) :
    ∀ ps : PoolState, (ps.pool = none ∨ ps.pool = some []) →
      (((runPoolOps ops ps).pool = none ∨ (runPoolOps ops ps).pool = some []) ∧
       (runPoolOps ops ps).reused = ps.reused) := by
  induction ops with
  | nil => intro ps h; exact ⟨h, rfl⟩
  | cons op rest ih =>
    intro ps h
    match op with
    | PoolOp.reg =>
      have hr : (effectRegister ps).1 = { ps with next := ps.next + 1 } := by
        rcases h with h | h <;> simp [effectRegister, h]
      rw [runPoolOps, hr]
      exact ih _ (by rcases h with h | h <;> simp [h])
    | PoolOp.disp =>
      have hr : effectDisposePool ps = { ps with pool := some [] } := by
        rcases h with h | h <;> simp [effectDisposePool, h]
      rw [runPoolOps, hr]
      exact ih _ (by simp)

/-! ### Claim C10 -/

/-- Claim C10: starting from an absent pool bucket, under every interleaving
of `effect(fn)` registrations and `dispose()` calls the bucket only ever
holds an empty (or absent) array — `dispose()` never inserts the disposed
wrapper — so every registration's pool lookup misses and the
reinitialization branch for recycled wrappers is never taken. -/
theorem pool_reinit_unreachable (ops : List PoolOp) :
    (((runPoolOps ops ⟨none, 0, 0⟩).pool = none ∨
      (runPoolOps ops ⟨none, 0, 0⟩).pool = some []) ∧
     (runPoolOps ops ⟨none, 0, 0⟩).reused = 0) :=
  runPoolOps_empty_invariant ops ⟨none, 0, 0⟩ (Or.inl rfl)

/-! ### The keyed list reconciler (`reactiveList.js` lines 15-74) -/

/-- Reconciler state: the key-to-node cache (`nodeCache`, a `Map` in
insertion order), the container's child list (append order) and a fresh
node-id counter modelling `renderItem` creating a new DOM node per call. -/
structure ListState where
  cache : List (Nat × Nat)
  container : List Nat
  next : Nat
deriving DecidableEq, Repr

/-- `nodeCache.get(id)` (and `nodeCache.has(id)` via `isSome`). -/
def cacheLookup (cache : List (Nat × Nat)) (k : Nat) : Option Nat :=
  (cache.find? (fun p => p.1 == k)).map (fun p => p.2)

/-- The mount loop (`items.forEach`, `reactiveList.js` lines 26-36): an item
whose key is already cached is left untouched; a new key renders a fresh
node, caches it and appends it to the container. Returns the state and the
keys rendered, one render call each. -/
def mountLoop (getKey : Nat → Nat) :
    List Nat → ListState → List Nat → (ListState × List Nat)
  | [], st, rend => (st, rend)
  | item :: rest, st, rend =>
      match cacheLookup st.cache (getKey item) with
      | some _ => mountLoop getKey rest st rend
      | none =>
          mountLoop getKey rest
            { cache := st.cache ++ [(getKey item, st.next)],
              container := st.container ++ [st.next],
              next := st.next + 1 }
            (rend ++ [getKey item])

/-- The unmount loop (`reactiveList.js` lines 41-54), iterating a snapshot of
the cache's keys: a key absent from `seen` has its node passed to
`disposeNode`, removed from the container and evicted from the cache.
Returns the state and the nodes passed to `disposeNode`, one
cleanup-plus-removal each. -/
def unmountLoop (seen : List Nat) :
    List Nat → ListState → List Nat → (ListState × List Nat)
  | [], st, disp => (st, disp)
  | id :: rest, st, disp =>
      if id ∈ seen then unmountLoop seen rest st disp
      else
        match cacheLookup st.cache id with
        | some node =>
            unmountLoop seen rest
              { cache := st.cache.filter (fun p => !(p.1 == id)),
                container := st.container.filter (fun n => !(n == node)),
                next := st.next }
              (disp ++ [node])
        | none => unmountLoop seen rest st disp

/-- One full pass of the reconciler's root effect (`reactiveList.js` lines
21-55): mount new keys, then unmount cached keys not seen in `items`.
Returns the final state, the rendered keys and the disposed nodes. -/
def reconcilePass (getKey : Nat → Nat) (items : List Nat) (st : ListState) :
    (ListState × List Nat × List Nat) :=
  let m := mountLoop getKey items st []
  let u := unmountLoop (items.map getKey) (m.1.cache.map (fun p => p.1)) m.1 []
  (u.1, m.2, u.2)

theorem reconcilePass_eq (getKey : Nat → Nat) (items : List Nat) (st : ListState) :
    reconcilePass getKey items st =
      ((unmountLoop (items.map getKey)
          ((mountLoop getKey items st []).1.cache.map (fun p => p.1))
          (mountLoop getKey items st []).1 []).1,
       (mountLoop getKey items st []).2,
       (unmountLoop (items.map getKey)
          ((mountLoop getKey items st []).1.cache.map (fun p => p.1))
          (mountLoop getKey items st []).1 []).2) := rfl

theorem cacheLookup_none_iff {cache : List (Nat × Nat)} {k : Nat} :
    cacheLookup cache k = none ↔ k ∉ cache.map (fun p => p.1) := by
  unfold cacheLookup
  rw [Option.map_eq_none', List.find?_eq_none]
  constructor
  · intro h hk
    obtain ⟨p, hp, hpk⟩ := List.mem_map.mp hk
    have hb := h p hp
    simp [hpk] at hb
  · intro h p hp
    simp only [beq_iff_eq]
    intro hpk
    exact h (List.mem_map.mpr ⟨p, hp, hpk⟩)

theorem mountLoop_all_cached (getKey : Nat → Nat) (items : List Nat) :
    ∀ (st : ListState) (rend : List Nat),
      (∀ item ∈ items, getKey item ∈ st.cache.map (fun p => p.1)) →
      mountLoop getKey items st rend = (st, rend) := by
  induction items with
  | nil => intro st rend _; rfl
  | cons item rest ih =>
    intro st rend hall
    rw [mountLoop]
    have hk : getKey item ∈ st.cache.map (fun p => p.1) :=
      hall item (List.mem_cons_self _ _)
    have hsome : cacheLookup st.cache (getKey item) ≠ none := by
      rw [Ne, cacheLookup_none_iff]
      exact fun hc => hc hk
    match hl : cacheLookup st.cache (getKey item) with
    | some _ =>
      exact ih st rend (fun i hi => hall i (List.mem_cons_of_mem _ hi))
    | none => exact absurd hl hsome

theorem mountLoop_keys (getKey : Nat → Nat) (items : List Nat) :
    ∀ (st : ListState) (rend : List Nat) (k : Nat),
      (k ∈ (mountLoop getKey items st rend).1.cache.map (fun p => p.1) ↔
        k ∈ st.cache.map (fun p => p.1) ∨ k ∈ items.map getKey) := by
  induction items with
  | nil => intro st rend k; simp [mountLoop]
  | cons item rest ih =>
    intro st rend k
    rw [mountLoop]
    match hl : cacheLookup st.cache (getKey item) with
    | some node =>
      rw [ih]
      have hk : getKey item ∈ st.cache.map (fun p => p.1) := by
        by_contra hc
        rw [← cacheLookup_none_iff] at hc
        rw [hl] at hc
        cases hc
      simp only [List.map_cons, List.mem_cons]
      constructor
      · rintro (h | h)
        · exact Or.inl h
        · exact Or.inr (Or.inr h)
      · rintro (h | rfl | h)
        · exact Or.inl h
        · exact Or.inl hk
        · exact Or.inr h
    | none =>
      rw [ih]
      simp only [List.map_append, List.map_cons, List.mem_append,
        List.mem_cons, List.map_nil]
      constructor
      · rintro ((h | h) | h)
        · exact Or.inl h
        · rcases h with rfl | h
          · exact Or.inr (Or.inl rfl)
          · cases h
        · exact Or.inr (Or.inr h)
      · rintro (h | rfl | h)
        · exact Or.inl (Or.inl h)
        · exact Or.inl (Or.inr (Or.inl rfl))
        · exact Or.inr h

theorem unmountLoop_all_seen (seen : List Nat) (ids : List Nat) :
    ∀ (st : ListState) (disp : List Nat),
      (∀ id ∈ ids, id ∈ seen) →
      unmountLoop seen ids st disp = (st, disp) := by
  induction ids with
  | nil => intro st disp _; rfl
  | cons id rest ih =>
    intro st disp hall
    rw [unmountLoop]
    have hid : id ∈ seen := hall id (List.mem_cons_self _ _)
    rw [if_pos hid]
    exact ih st disp (fun i hi => hall i (List.mem_cons_of_mem _ hi))

/-! ### Claim C7 -/

/-- Claim C7: keyed reconciliation is idempotent. After a first pass over
`items1` from the empty reconciler state, a second pass over any item
sequence with the same key set performs zero render calls and zero
cleanup/removal calls and leaves the state — cache and container —
untouched: no entry is re-rendered or moved. -/
theorem reconcile_idempotent (getKey : Nat → Nat) (items1 items2 : List Nat)
    (h : ∀ k, k ∈ items2.map getKey ↔ k ∈ items1.map getKey) :
    reconcilePass getKey items2 (reconcilePass getKey items1 ⟨[], [], 0⟩).1 =
      ((reconcilePass getKey items1 ⟨[], [], 0⟩).1, [], []) := by
  have hkeys1 : ∀ k,
      (k ∈ (mountLoop getKey items1 ⟨[], [], 0⟩ []).1.cache.map (fun p => p.1) ↔
        k ∈ items1.map getKey) := by
    intro k
    rw [mountLoop_keys]
    simp
  have hpass1 : (reconcilePass getKey items1 ⟨[], [], 0⟩).1 =
      (mountLoop getKey items1 ⟨[], [], 0⟩ []).1 := by
    rw [reconcilePass_eq]
    rw [unmountLoop_all_seen]
    intro id hid
    exact (hkeys1 id).mp hid
  have hkeys2 : ∀ k,
      (k ∈ (reconcilePass getKey items1 ⟨[], [], 0⟩).1.cache.map (fun p => p.1) ↔
        k ∈ items2.map getKey) := by
    intro k
    rw [hpass1, hkeys1, h]
  have hmount2 : mountLoop getKey items2
      (reconcilePass getKey items1 ⟨[], [], 0⟩).1 [] =
      ((reconcilePass getKey items1 ⟨[], [], 0⟩).1, []) := by
    apply mountLoop_all_cached
    intro item hitem
    rw [hkeys2]
    exact List.mem_map_of_mem getKey hitem
  have hm1 : (mountLoop getKey items2
      (reconcilePass getKey items1 ⟨[], [], 0⟩).1 []).1 =
      (reconcilePass getKey items1 ⟨[], [], 0⟩).1 := by rw [hmount2]
  have hm2 : (mountLoop getKey items2
      (reconcilePass getKey items1 ⟨[], [], 0⟩).1 []).2 = [] := by rw [hmount2]
  have hu : unmountLoop (items2.map getKey)
      ((reconcilePass getKey items1 ⟨[], [], 0⟩).1.cache.map (fun p => p.1))
      (reconcilePass getKey items1 ⟨[], [], 0⟩).1 [] =
      ((reconcilePass getKey items1 ⟨[], [], 0⟩).1, []) :=
    unmountLoop_all_seen _ _ _ [] (fun id hid => (hkeys2 id).mp hid)
  rw [reconcilePass_eq, hm1, hm2, hu]

/-- Witness for claim C7 at a concrete input: first pass over items `[1, 2]`
with the identity key function, second pass over `[2, 1]` (same key set). -/
theorem reconcile_idempotent_witness :
    (∀ k, k ∈ ([2, 1].map (fun n : Nat => n)) ↔ k ∈ ([1, 2].map (fun n : Nat => n))) ∧
    reconcilePass (fun n => n) [2, 1]
        (reconcilePass (fun n => n) [1, 2] ⟨[], [], 0⟩).1 =
      ((reconcilePass (fun n => n) [1, 2] ⟨[], [], 0⟩).1, [], []) :=
  ⟨fun k => by simp [List.mem_cons]; tauto,
   reconcile_idempotent (fun n => n) [1, 2] [2, 1]
     (fun k => by simp [List.mem_cons]; tauto)⟩

/-! ### The windowed list reconciler (`middle/virtualList.js`, lines 214-311) -/

/-- Windowed reconciler state: the key-to-record cache (`nodeCache`, entries
`(key, node, index)`), the `content` element's child list, the fresh node-id
counter modelling `renderItem`, and the nodes passed to `disposeNode` so far
(each such call invokes the node's registered disposal callback, if any, and
clears its registration — `lifecycle.js` lines 17-21). -/
structure VState where
  cache : List (Nat × Nat × Nat)
  content : List Nat
  next : Nat
  disposeCalls : List Nat
deriving DecidableEq, Repr

/-- `nodeCache.get(key)`: the cached `(node, index)` record. -/
def vLookup (cache : List (Nat × Nat × Nat)) (k : Nat) : Option (Nat × Nat) :=
  (cache.find? (fun p => p.1 == k)).map (fun p => p.2)

/-- `Math.max(0, Math.floor(scrollTop / itemHeight) - buffer)`. -/
def windowStart (scrollTop itemHeight buffer : Nat) : Nat :=
  scrollTop / itemHeight - buffer

/-- `Math.min(total, Math.ceil((scrollTop + viewportHeight) / itemHeight) + buffer)`. -/
def windowEnd (total scrollTop viewportHeight itemHeight buffer : Nat) : Nat :=
  min total ((scrollTop + viewportHeight + itemHeight - 1) / itemHeight + buffer)

/-- The window loop (`virtualList.js` lines 252-273) over the index range:
a cached key is reused — its record's index is updated and its node moved
into the fragment (which detaches it from `content`); a new key renders a
fresh node straight into the fragment. Accumulates the fragment and the
`activeKeys` set. -/
def windowLoop (getKey : Nat → Nat) (items : List Nat) :
    List Nat → VState → List Nat → List Nat → (VState × List Nat × List Nat)
  | [], st, frag, active => (st, frag, active)
  | i :: rest, st, frag, active =>
      let key := getKey (items.getD i 0)
      match vLookup st.cache key with
      | none =>
          windowLoop getKey items rest
            { st with cache := st.cache ++ [(key, st.next, i)], next := st.next + 1 }
            (frag ++ [st.next]) (active ++ [key])
      | some r =>
          windowLoop getKey items rest
            { st with
              cache := st.cache.map
                (fun p => if p.1 == key then (p.1, p.2.1, i) else p),
              content := st.content.filter (fun n => !(n == r.1)) }
            (frag ++ [r.1]) (active ++ [key])

/-- The removal loop (`virtualList.js` lines 276-287) over a snapshot of the
cache: an entry whose key is not active is removed from `content` (when
still attached) and evicted from the cache — `disposeNode` is NOT called
here; the source merely comments "Simply remove from DOM & cache". -/
def removalLoop (active : List Nat) :
    List (Nat × Nat × Nat) → VState → VState
  | [], st => st
  | p :: rest, st =>
      if p.1 ∈ active then removalLoop active rest st
      else
        removalLoop active rest
          { st with
            content :=
              if p.2.1 ∈ st.content
              then st.content.filter (fun n => !(n == p.2.1))
              else st.content,
            cache := st.cache.filter (fun q => !(q.1 == p.1)) }

/-- One pass of the windowed reconciler's root effect (lines 230-291):
compute the window, run the window loop, run the removal loop over the cache
snapshot, then append the fragment's nodes to `content`. -/
def virtualPass (getKey : Nat → Nat) (items : List Nat)
    (scrollTop viewportHeight itemHeight buffer : Nat) (st : VState) : VState :=
  let s := windowStart scrollTop itemHeight buffer
  let e := windowEnd items.length scrollTop viewportHeight itemHeight buffer
  let w := windowLoop getKey items (List.range' s (e - s)) st [] []
  let r := removalLoop w.2.2 w.1.cache w.1
  { r with content := r.content ++ w.2.1 }

/-- The unmount teardown loop (lines 294-301): every node still cached is
passed to `disposeNode` and removed from `content` if attached. -/
def vUnmountLoop : List (Nat × Nat × Nat) → VState → VState
  | [], st => st
  | p :: rest, st =>
      vUnmountLoop rest
        { st with
          disposeCalls := st.disposeCalls ++ [p.2.1],
          content :=
            if p.2.1 ∈ st.content
            then st.content.filter (fun n => !(n == p.2.1))
            else st.content }

/-- The unmount function returned by `virtualList`: dispose the root effect,
tear down every cached node, clear the cache. -/
def virtualUnmount (st : VState) : VState :=
  { vUnmountLoop st.cache st with cache := [] }

theorem windowLoop_disposeCalls (getKey : Nat → Nat) (items : List Nat)
    (idxs : List Nat) :
    ∀ (st : VState) (frag active : List Nat),
      (windowLoop getKey items idxs st frag active).1.disposeCalls =
        st.disposeCalls := by
  induction idxs with
  | nil => intro st frag active; rfl
  | cons i rest ih =>
    intro st frag active
    rw [windowLoop]
    match vLookup st.cache (getKey (items.getD i 0)) with
    | none => rw [ih]
    | some r => rw [ih]

theorem removalLoop_disposeCalls (active : List Nat)
    (pairs : List (Nat × Nat × Nat)) :
    ∀ st : VState, (removalLoop active pairs st).disposeCalls =
      st.disposeCalls := by
  induction pairs with
  | nil => intro st; rfl
  | cons p rest ih =>
    intro st
    rw [removalLoop]
    by_cases hp : p.1 ∈ active
    · rw [if_pos hp, ih]
    · rw [if_neg hp, ih]

theorem removalLoop_cache (active : List Nat) (pairs : List (Nat × Nat × Nat)) :
    ∀ st : VState, (removalLoop active pairs st).cache =
      st.cache.filter
        (fun q => decide (q.1 ∈ active) || !(pairs.any (fun p => p.1 == q.1))) := by
  induction pairs with
  | nil =>
    intro st
    simp [removalLoop]
  | cons p rest ih =>
    intro st
    rw [removalLoop]
    by_cases hp : p.1 ∈ active
    · rw [if_pos hp, ih]
      apply List.filter_congr
      intro q _
      by_cases hq : p.1 = q.1
      · simp [List.any_cons, ← hq, hp]
      · have hb1 : (p.1 == q.1) = false := by simp [hq]
        simp [List.any_cons, hb1]
    · rw [if_neg hp, ih]
      simp only [List.filter_filter]
      apply List.filter_congr
      intro q _
      by_cases hq : q.1 = p.1
      · simp [List.any_cons, hq, hp]
      · have hb1 : (p.1 == q.1) = false := by
          simp only [beq_eq_false_iff_ne, ne_eq]
          exact fun h => hq h.symm
        have hb2 : (q.1 == p.1) = false := by simp [hq]
        simp [List.any_cons, hb1, hb2]

theorem vUnmountLoop_disposeCalls (pairs : List (Nat × Nat × Nat)) :
    ∀ st : VState, (vUnmountLoop pairs st).disposeCalls =
      st.disposeCalls ++ pairs.map (fun p => p.2.1) := by
  induction pairs with
  | nil => intro st; simp [vUnmountLoop]
  | cons p rest ih =>
    intro st
    rw [vUnmountLoop, ih]
    simp

/-! ### Claim C8 -/

/-- Claim C8 counterexample: with the identity key, items `[10, 20]`, item
height 1 and buffer 0, a first pass with viewport height 2 renders nodes `0`
and `1`; a second pass with viewport height 1 (window `[0, 1)`) puts the
entry for key `20` outside the window: its node `1` is removed from the
container and its cache entry evicted, yet `disposeCalls` stays empty — its
registered disposal callback is never invoked, contradicting the claim that
out-of-window entries are disposed exactly once as in the full keyed
reconciler. -/
theorem window_removal_skips_dispose_cex :
    virtualPass (fun n => n) [10, 20] 0 1 1 0
        (virtualPass (fun n => n) [10, 20] 0 2 1 0 ⟨[], [], 0, []⟩) =
      ⟨[(10, 0, 0)], [0], 2, []⟩ := by decide

/-- Claim C8 (amended): in the windowed reconciler, every cache entry whose
key falls outside the computed window is evicted from the cache (only
entries with active keys survive the removal phase) and detached from the
container, but its registered disposal callback is NOT invoked: a
reconciliation pass never calls `disposeNode` at all; disposal callbacks are
invoked only by the unmount function, once per entry still cached there. -/
theorem window_removal_skips_dispose (getKey : Nat → Nat) (items : List Nat)
    (scrollTop viewportHeight itemHeight buffer : Nat) (st st2 : VState)
    (active : List Nat) :
    ((virtualPass getKey items scrollTop viewportHeight itemHeight buffer
        st).disposeCalls = st.disposeCalls ∧
     ((removalLoop active st2.cache st2).cache.map (fun p => p.1)).all
        (fun k => decide (k ∈ active)) = true ∧
     (virtualUnmount st).disposeCalls =
        st.disposeCalls ++ st.cache.map (fun p => p.2.1)) := by
  refine ⟨?_, ?_, ?_⟩
  · show (removalLoop _ _ _).disposeCalls = st.disposeCalls
    rw [removalLoop_disposeCalls, windowLoop_disposeCalls]
  · rw [removalLoop_cache]
    rw [List.all_eq_true]
    intro k hk
    obtain ⟨q, hq, hqk⟩ := List.mem_map.mp hk
    obtain ⟨hqmem, hqpred⟩ := List.mem_filter.mp hq
    have hany : st2.cache.any (fun p => p.1 == q.1) = true :=
      List.any_eq_true.mpr ⟨q, hqmem, by simp⟩
    rw [hany] at hqpred
    simp only [Bool.not_true, Bool.or_false] at hqpred
    rw [← hqk]
    exact hqpred
  · show (vUnmountLoop st.cache st).disposeCalls = _
    rw [vUnmountLoop_disposeCalls]

end EchoJS
